import Mathlib

/-!
Verification of the parallel Behave runner and Allure result converter
(`driver/runner.py`): scheduler directory assignment, JSON-to-Allure
conversion (status normalization, duration accounting, error capture),
feature discovery, and exit-code policy.
-/

namespace Runner

/-! ### Decimal representation of naturals (for `result_<index>` names)

`str(index + 1)` in the Python f-string is the decimal representation of a
natural number; Lean's `toString` on `Nat` is `Nat.repr`, built from
`Nat.toDigitsCore`.  We relate it to a fuel-free recursion `decRepr` and
prove injectivity, which gives collision-freedom of the per-unit output
directory names. -/

def decRepr (n : Nat) : List Char :=
  if n < 10 then [Nat.digitChar n]
  else decRepr (n / 10) ++ [Nat.digitChar (n % 10)]
  decreasing_by exact Nat.div_lt_self (by omega) (by omega)

/-! ### Scheduler (`BehaveRunner.run_parallel`)

The filesystem is modelled as the list of directories created so far;
`mkdir(parents=True, exist_ok=True)` is a no-op on an existing directory.
`run_feature` returns the subprocess exit code; failures are reported via
that code, not via exceptions, so in the model each submitted unit yields
an exit code.  The completion order of the pool is an arbitrary
permutation of the submission indices. -/

structure FSState where
  dirs : List String
  deriving Repr, DecidableEq

def mkdirP (fs : FSState) (d : String) : FSState :=
  if d ∈ fs.dirs then fs else { dirs := fs.dirs ++ [d] }

/-- The output directory assigned to the unit at 0-based list index `i`:
`temp_results/result_{i + 1}`. -/
def assignedDir (i : Nat) : String :=
  "temp_results/result_" ++ toString (i + 1)

structure Submission where
  feature : String
  outputDir : String
  deriving Repr, DecidableEq

/-- The submission loop of `run_parallel`: for each feature, in list order,
create its per-index output directory and submit the unit to the pool. -/
def submitAll : List String → Nat → FSState → FSState × List Submission
  | [], _, fs => (fs, [])
  | f :: rest, i, fs =>
    let d := assignedDir i
    let fs1 := mkdirP fs d
    let (fs2, subs) := submitAll rest (i + 1) fs1
    (fs2, ⟨f, d⟩ :: subs)

/-- `run_parallel`: create `temp_results`, submit every unit (creating its
directory first), then collect one result directory per completed future,
in completion order (`order` lists submission indices in completion
order).  `run_feature` returns an exit code, which the collection loop
ignores. -/
def runParallel (features : List String) (order : List Nat) (fs0 : FSState) :
    FSState × List String :=
  let fsBase := mkdirP fs0 "temp_results"
  let (fs1, subs) := submitAll features 0 fsBase
  let resultDirs := order.filterMap (fun j => (subs[j]?).map (·.outputDir))
  (fs1, resultDirs)

/-! ### Converter data model (`AllureConverter`)

Raw Behave JSON records are modelled structurally: optional fields are
`Option`; a JSON `null` and an absent key both read back as the `get`
default, so both are `none`.  Durations are JSON numbers, modelled as
rationals; Python `int()` truncates toward zero.  `error_message` may be a
string or a list of strings. -/

inductive RawError where
  | str (s : String)
  | strList (l : List String)
  deriving Repr, DecidableEq

structure RawStepResult where
  status : Option String
  duration : Option Rat
  error_message : Option RawError
  deriving Repr, DecidableEq

structure RawStep where
  keyword : Option String
  name : Option String
  result : Option RawStepResult
  deriving Repr, DecidableEq

structure RawElement where
  type : Option String
  name : Option String
  status : Option String
  steps : List RawStep
  tags : List String
  deriving Repr, DecidableEq

structure RawFeature where
  name : Option String
  elements : List RawElement
  deriving Repr, DecidableEq

/-- A parsed result-file value: `json.load` may return a top-level list of
features or any other JSON value. -/
inductive RawJson where
  | arr (features : List RawFeature)
  | nonList
  deriving Repr, DecidableEq

structure StatusDetails where
  message : Option String
  trace : Option String
  deriving Repr, DecidableEq

structure StepData where
  name : String
  status : String
  start : Int
  stop : Int
  statusDetails : Option StatusDetails
  deriving Repr, DecidableEq

structure ErrorInfo where
  message : String
  trace : String
  deriving Repr, DecidableEq

structure ScenarioData where
  uuid : String
  name : String
  fullName : String
  status : String
  start : Int
  stop : Int
  duration : Int
  steps : List StepData
  labels : List (String × String)
  statusDetails : Option StatusDetails
  deriving Repr, DecidableEq

/-- Python `int()` on a rational: truncation toward zero. -/
def pyInt (q : Rat) : Int :=
  if q < 0 then ⌈q⌉ else ⌊q⌋

/-- Python truthiness of an optional string (`None` and `''` are falsy). -/
def pyTruthy : Option String → Bool
  | none => false
  | some s => s ≠ ""

/-- `_normalize_status`: map a raw Behave status onto the Allure
vocabulary. -/
def normalizeStatus (status : String) : String :=
  if status = "failed" then "failed"
  else if status = "error" then "broken"
  else if status = "skipped" ∨ status = "undefined" then "skipped"
  else "passed"

/-- `step_result.get('error_message', '')` followed by the list-join /
`str` coercion: a list is joined with newlines; a missing or null value
reads as the empty string. -/
def rawErrorMsg : Option RawError → String
  | none => ""
  | some (.strList l) => String.intercalate "\n" l
  | some (.str s) => s

def emptyStepResult : RawStepResult := ⟨none, none, none⟩

/-- `_build_allure_step`: build the Allure step record and the error info
pair (returned for scenario-level capture). -/
def buildAllureStep (step : RawStep) : StepData × Option ErrorInfo :=
  let stepResult := step.result.getD emptyStepResult
  let rawStatus := stepResult.status.getD "passed"
  let stepStatus := normalizeStatus rawStatus
  let stepDuration := pyInt ((stepResult.duration.getD 0) * 1000)
  let base : StepData :=
    { name := step.keyword.getD "" ++ step.name.getD ""
      status := stepStatus
      start := 0
      stop := stepDuration
      statusDetails := none }
  if rawStatus = "failed" ∨ rawStatus = "error" then
    let errMsg := rawErrorMsg stepResult.error_message
    let stepData :=
      if errMsg ≠ "" then
        { base with statusDetails := some ⟨some (errMsg.take 500), some errMsg⟩ }
      else base
    (stepData, some ⟨errMsg, errMsg⟩)
  else
    (base, none)

/-- Accumulator state of the step loop in `_build_allure_scenario`. -/
structure ScanState where
  steps : List StepData
  total : Int
  status : String
  errMsg : Option String
  errTrace : Option String
  deriving Repr, DecidableEq

def initScan : ScanState := ⟨[], 0, "passed", none, none⟩

/-- The `for step in element.get('steps', [])` loop of
`_build_allure_scenario`. -/
def stepLoop : List RawStep → ScanState → ScanState
  | [], st => st
  | s :: rest, st =>
    let p := buildAllureStep s
    let st1 : ScanState :=
      { st with steps := st.steps ++ [p.1], total := st.total + p.1.stop }
    let st2 : ScanState :=
      if p.1.status = "failed" ∨ p.1.status = "broken" then
        match p.2 with
        | some e =>
          { st1 with status := p.1.status
                     errMsg := some e.message
                     errTrace := some e.trace }
        | none => { st1 with status := p.1.status }
      else st1
    stepLoop rest st2

/-- `_build_labels`. -/
def buildLabels (featureName : String) (tags : List String) :
    List (String × String) :=
  [("feature", featureName), ("language", "gherkin"), ("suite", featureName)]
    ++ tags.map (fun t => ("tag", t))

/-- `_build_allure_scenario`.  The fresh `uuid.uuid4()` value is supplied
as the parameter `u` (an external random source). -/
def buildAllureScenario (u : String) (element : RawElement)
    (featureName : String) : ScenarioData :=
  let scenarioName := element.name.getD "Scenario"
  let st := stepLoop element.steps initScan
  let elementStatus := element.status.getD ""
  let scenarioStatus :=
    if elementStatus = "failed" ∨ elementStatus = "error" then
      (if elementStatus = "failed" then "failed" else "broken")
    else st.status
  let statusDetails :=
    if pyTruthy st.errMsg ∨ pyTruthy st.errTrace then
      some (StatusDetails.mk
        (if pyTruthy st.errMsg then st.errMsg else none)
        (if pyTruthy st.errTrace then st.errTrace else none))
    else none
  { uuid := u
    name := scenarioName
    fullName := featureName ++ "." ++ scenarioName
    status := scenarioStatus
    start := 0
    stop := st.total
    duration := st.total
    steps := st.steps
    labels := buildLabels featureName element.tags
    statusDetails := statusDetails }

/-- `_process_json_file`: a non-list top-level value yields no scenarios;
otherwise every non-background element of every feature is converted. -/
def processJsonFile (u : String) (j : RawJson) : List ScenarioData :=
  match j with
  | .nonList => []
  | .arr features =>
    features.flatMap (fun feature =>
      let featureName := feature.name.getD "Feature"
      (feature.elements.filter (fun e => ¬ (e.type = some "background"))).map
        (fun e => buildAllureScenario u e featureName))

/-- One result file as seen by `convert_results`: either it parses to a
JSON value, or reading/parsing it (or writing one of its records) raises,
which the loop catches and logs as a warning. -/
inductive FileOutcome where
  | parsed (j : RawJson)
  | malformed
  deriving Repr, DecidableEq

/-- `convert_results`: fold over the discovered result files, converting
every scenario of each well-formed file and skipping malformed files with
a warning.  Returns (number of scenarios converted, number of warnings
logged). -/
def convertResults (u : String) (files : List FileOutcome) : Nat × Nat :=
  files.foldl
    (fun acc file =>
      match file with
      | .parsed j => (acc.1 + (processJsonFile u j).length, acc.2)
      | .malformed => (acc.1, acc.2 + 1))
    (0, 0)

/-- One iteration of the scenario-status update in the step loop: a
failed or broken step status overwrites the accumulator; anything else
(including skipped) leaves it unchanged. -/
def statusUpd (acc s : String) : String :=
  if s = "failed" ∨ s = "broken" then s else acc

/-- The scenario status derived from the (normalized) step statuses
alone, before the element-level override. -/
def stepDerivedStatus (statuses : List String) : String :=
  statuses.foldl statusUpd "passed"

/-- One iteration of the scenario-level error capture in the step loop:
a failing or broken step's error pair overwrites the accumulator. -/
def captureStep (acc : Option ErrorInfo) (s : RawStep) : Option ErrorInfo :=
  let p := buildAllureStep s
  if p.1.status = "failed" ∨ p.1.status = "broken" then
    match p.2 with
    | some e => some e
    | none => acc
  else acc

/-- A raw step that failed with the given error message. -/
def failedStep (m : String) : RawStep :=
  ⟨some "When ", some "it breaks", some ⟨some "failed", none, some (.str m)⟩⟩

/-- A raw scenario element with two failing steps carrying distinct error
messages. -/
def twoFailElement : RawElement :=
  ⟨some "scenario", some "S", none, [failedStep "e1", failedStep "e2"], []⟩

/-- A raw step that passed. -/
def passedStep : RawStep :=
  ⟨some "Given ", some "it works", some ⟨some "passed", none, none⟩⟩

/-- A raw step that was skipped. -/
def skippedStep : RawStep :=
  ⟨some "Then ", some "not reached", some ⟨some "skipped", none, none⟩⟩

/-- A raw scenario element with no explicit element-level status and no
steps. -/
def plainElement : RawElement :=
  ⟨some "scenario", some "S", none, [], []⟩

/-- A 501-character error message (all 'a'). -/
def longA : String := String.mk (List.replicate 501 'a')

/-- A 501-character error message (all 'b'). -/
def longB : String := String.mk (List.replicate 501 'b')

/-- A raw scenario element with two failing steps whose error messages
both exceed 500 characters. -/
def twoLongFailElement : RawElement :=
  ⟨some "scenario", some "S", none, [failedStep longA, failedStep longB], []⟩

/-! ### Feature discovery (`TestExecutor._get_feature_files`)

The filesystem is an oracle: `kind` classifies a path as file, directory
or absent; `globFeature d` lists the `*.feature` paths directly inside
`d` in raw OS order (empty when `d` does not exist).  Errors are printed
and surface as an empty list, never as an exception. -/

inductive Entry where
  | file | directory | absent
  deriving Repr, DecidableEq

structure DiskFS where
  kind : String → Entry
  globFeature : String → List String

def pathJoin (a b : String) : String := a ++ "/" ++ b

/-- Python `str.endswith(pat)`. -/
def strEndsWith (s pat : String) : Bool := pat.data.isSuffixOf s.data

/-- Python `str.lstrip('./')`: drop the longest prefix of characters
drawn from the set `{'.', '/'}`. -/
def lstripDotSlash (s : String) : String :=
  String.mk (s.data.dropWhile (fun c => c == '.' || c == '/'))

/-- Lexicographic comparison of character lists by code point, Python's
ordering on strings. -/
def charListLe : List Char → List Char → Bool
  | [], _ => true
  | _ :: _, [] => false
  | a :: as, b :: bs =>
    if a.toNat < b.toNat then true
    else if b.toNat < a.toNat then false
    else charListLe as bs

def pathLe (a b : String) : Bool := charListLe a.data b.data

/-- Python `sorted(...)`: a stable sort with respect to the lexicographic
path order. -/
def sortPaths (l : List String) : List String :=
  l.mergeSort pathLe

def getFeatureFiles (fs : DiskFS) (featuresBaseDir : String)
    (featureName : Option String) : List String :=
  if fs.kind featuresBaseDir = Entry.absent then []
  else
    match featureName with
    | some name =>
      if strEndsWith name ".feature" then
        let cleanPath := lstripDotSlash name
        let relPath := pathJoin featuresBaseDir cleanPath
        let featurePath := if fs.kind relPath = Entry.absent then name else relPath
        if fs.kind featurePath = Entry.file then [featurePath] else []
      else
        sortPaths (fs.globFeature (pathJoin featuresBaseDir name))
    | none => sortPaths (fs.globFeature featuresBaseDir)

/-- A small concrete filesystem: a base directory `features` holding
`login.feature` and a subfolder `herokuapp` with two feature files listed
by the OS out of order. -/
def sampleFS : DiskFS :=
  { kind := fun p =>
      if p = "features" then Entry.directory
      else if p = "features/login.feature" then Entry.file
      else if p = "features/herokuapp" then Entry.directory
      else Entry.absent
    globFeature := fun d =>
      if d = "features/herokuapp" then
        ["features/herokuapp/b.feature", "features/herokuapp/a.feature"]
      else [] }

/-! ### Exit-code policy (`TestExecutor.execute` / `_process_results`)

The run outcome is environment-determined: the per-unit subprocess exit
codes and the set of JSON result files collected from the result
directories are parameters.  Report generation returns a boolean that the
caller discards. -/

/-- `_process_results`: convert collected files and decide the exit code;
the report-generation outcome (`reportOk`) is computed when conversion
succeeded and `autoGenerate` is set, and then discarded. -/
def processResults (u : String) (files : List FileOutcome)
    (autoGenerate reportOk : Bool) : Nat :=
  if files.isEmpty then 1
  else
    let converted := (convertResults u files).1
    if converted > 0 then
      let _generated := if autoGenerate then reportOk else true
      0
    else 1

/-- `TestExecutor.execute`: abort with exit code 1 when discovery finds no
feature files; otherwise run the units (their exit codes are logged and
ignored) and hand the collected result files to `_process_results`. -/
def execute (u : String) (featureFiles : List String) (unitExitCodes : List Int)
    (files : List FileOutcome) (autoGenerate reportOk : Bool) : Nat :=
  if featureFiles.isEmpty then 1
  else
    let _codes := unitExitCodes
    processResults u files autoGenerate reportOk

/-! ## Helper lemmas: decimal representation -/

theorem decRepr_of_lt (n : Nat) (h : n < 10) : decRepr n = [Nat.digitChar n] := by
  unfold decRepr
  simp [h]

theorem decRepr_of_ge (n : Nat) (h : ¬ n < 10) :
    decRepr n = decRepr (n / 10) ++ [Nat.digitChar (n % 10)] := by
  conv_lhs => unfold decRepr
  simp [h]

theorem decRepr_ne_nil (n : Nat) : decRepr n ≠ [] := by
  by_cases h : n < 10
  · simp [decRepr_of_lt n h]
  · simp [decRepr_of_ge n h]

theorem digitChar_inj_lt : ∀ m < 10, ∀ k < 10,
    Nat.digitChar m = Nat.digitChar k → m = k := by decide

theorem decRepr_inj : ∀ m n : Nat, decRepr m = decRepr n → m = n := by
  intro m
  induction m using Nat.strong_induction_on with
  | _ m ih =>
    intro n h
    by_cases hm : m < 10 <;> by_cases hn : n < 10
    · rw [decRepr_of_lt m hm, decRepr_of_lt n hn] at h
      exact digitChar_inj_lt m hm n hn (by injection h)
    · rw [decRepr_of_lt m hm, decRepr_of_ge n hn] at h
      have hl := congrArg List.length h
      simp at hl
      exact absurd hl (decRepr_ne_nil _)
    · rw [decRepr_of_ge m hm, decRepr_of_lt n hn] at h
      have hl := congrArg List.length h
      simp at hl
      exact absurd hl (decRepr_ne_nil _)
    · rw [decRepr_of_ge m hm, decRepr_of_ge n hn] at h
      obtain ⟨h1, h2⟩ := List.append_inj' h (by simp)
      have hmod : m % 10 = n % 10 :=
        digitChar_inj_lt (m % 10) (Nat.mod_lt m (by omega)) (n % 10)
          (Nat.mod_lt n (by omega)) (by injection h2)
      have hdiv : m / 10 = n / 10 :=
        ih (m / 10) (Nat.div_lt_self (by omega) (by omega)) (n / 10) h1
      omega

theorem toDigitsCore_succ (f n : Nat) (ds : List Char) :
    Nat.toDigitsCore 10 (f + 1) n ds =
      (if n / 10 = 0 then Nat.digitChar (n % 10) :: ds
       else Nat.toDigitsCore 10 f (n / 10) (Nat.digitChar (n % 10) :: ds)) := by
  simp only [Nat.toDigitsCore]

theorem toDigitsCore_eq_decRepr :
    ∀ (f n : Nat) (ds : List Char), n < 10 ^ (f + 1) →
      Nat.toDigitsCore 10 (f + 1) n ds = decRepr n ++ ds := by
  intro f
  induction f with
  | zero =>
    intro n ds h
    have h10 : n < 10 := by simpa using h
    have hdiv : n / 10 = 0 := Nat.div_eq_of_lt h10
    rw [toDigitsCore_succ, if_pos hdiv, decRepr_of_lt n h10, Nat.mod_eq_of_lt h10]
    rfl
  | succ f ihf =>
    intro n ds h
    by_cases hdiv : n / 10 = 0
    · have h10 : n < 10 := by omega
      rw [toDigitsCore_succ, if_pos hdiv, decRepr_of_lt n h10, Nat.mod_eq_of_lt h10]
      rfl
    · have hlt : n / 10 < 10 ^ (f + 1) := by
        rw [Nat.div_lt_iff_lt_mul (by omega : 0 < 10)]
        calc n < 10 ^ (f + 1 + 1) := h
        _ = 10 ^ (f + 1) * 10 := by rw [Nat.pow_succ]
      rw [toDigitsCore_succ, if_neg hdiv]
      rw [ihf (n / 10) (Nat.digitChar (n % 10) :: ds) hlt]
      rw [decRepr_of_ge n (by omega)]
      simp

theorem toDigits_eq_decRepr (n : Nat) : Nat.toDigits 10 n = decRepr n := by
  have h : n < 10 ^ (n + 1) :=
    lt_of_lt_of_le (Nat.lt_pow_self (by omega) n)
      (Nat.pow_le_pow_right (by omega) (Nat.le_succ n))
  have := toDigitsCore_eq_decRepr n n [] h
  simpa [Nat.toDigits] using this

theorem natToString_inj (m n : Nat) (h : toString m = toString n) : m = n := by
  have hrepr : Nat.repr m = Nat.repr n := h
  have hdata : (Nat.toDigits 10 m) = (Nat.toDigits 10 n) := by
    have := congrArg String.data hrepr
    simpa [Nat.repr, List.asString] using this
  rw [toDigits_eq_decRepr, toDigits_eq_decRepr] at hdata
  exact decRepr_inj m n hdata

theorem natToString_ne_nil (n : Nat) : (toString n : String).length ≥ 1 := by
  show (Nat.repr n).length ≥ 1
  have : (Nat.repr n).data = decRepr n := by
    simp [Nat.repr, List.asString, toDigits_eq_decRepr]
  have hlen : (Nat.repr n).length = (decRepr n).length := by
    show (Nat.repr n).data.length = _
    rw [this]
  rw [hlen]
  have := decRepr_ne_nil n
  cases hd : decRepr n with
  | nil => exact absurd hd this
  | cons a l => simp

theorem assignedDir_inj (i j : Nat) (h : assignedDir i = assignedDir j) : i = j := by
  unfold assignedDir at h
  have hdata := congrArg String.data h
  simp only [String.data_append] at hdata
  have := List.append_cancel_left hdata
  have heq : (toString (i + 1) : String) = toString (j + 1) := String.ext this
  have := natToString_inj (i + 1) (j + 1) heq
  omega

theorem assignedDir_length (i : Nat) : (assignedDir i).length ≥ 21 := by
  unfold assignedDir
  rw [String.length_append]
  have h1 : ("temp_results/result_" : String).length = 20 := by decide
  have h2 := natToString_ne_nil (i + 1)
  omega

theorem temp_results_not_assigned (i : Nat) : "temp_results" ≠ assignedDir i := by
  intro h
  have := congrArg String.length h
  have h12 : ("temp_results" : String).length = 12 := by decide
  have := assignedDir_length i
  omega

/-! ## Helper lemmas: scheduler -/

theorem submitAll_length (features : List String) (i : Nat) (fs : FSState) :
    (submitAll features i fs).2.length = features.length := by
  induction features generalizing i fs with
  | nil => rfl
  | cons f rest ih => simp [submitAll, ih]

theorem submitAll_outputDirs (features : List String) (i : Nat) (fs : FSState) :
    (submitAll features i fs).2.map (·.outputDir) =
      (List.range features.length).map (fun k => assignedDir (i + k)) := by
  induction features generalizing i fs with
  | nil => rfl
  | cons f rest ih =>
    have hmap : List.map (fun k => assignedDir (i + 1 + k)) (List.range rest.length) =
        List.map ((fun k => assignedDir (i + k)) ∘ Nat.succ) (List.range rest.length) := by
      apply List.map_congr_left
      intro k _
      show assignedDir (i + 1 + k) = assignedDir (i + Nat.succ k)
      congr 1
      omega
    simp only [submitAll, List.map_cons, List.length_cons]
    rw [ih, List.range_succ_eq_map]
    simp only [List.map_cons, List.map_map, Nat.add_zero]
    rw [hmap]

theorem submitAll_dirs (features : List String) (i : Nat) (fs : FSState)
    (hnew : ∀ k, k < features.length → assignedDir (i + k) ∉ fs.dirs) :
    (submitAll features i fs).1.dirs =
      fs.dirs ++ (List.range features.length).map (fun k => assignedDir (i + k)) := by
  induction features generalizing i fs with
  | nil => simp [submitAll]
  | cons f rest ih =>
    have h0 : assignedDir i ∉ fs.dirs := by
      have := hnew 0 (by simp)
      simpa using this
    have hmk : mkdirP fs (assignedDir i) = ⟨fs.dirs ++ [assignedDir i]⟩ := by
      simp [mkdirP, h0]
    have hrest : ∀ k, k < rest.length →
        assignedDir (i + 1 + k) ∉ (fs.dirs ++ [assignedDir i]) := by
      intro k hk
      simp only [List.mem_append, List.mem_singleton]
      push_neg
      constructor
      · have := hnew (k + 1) (by simpa using Nat.succ_lt_succ hk)
        have harg : i + (k + 1) = i + 1 + k := by omega
        rwa [harg] at this
      · intro hcontr
        have := assignedDir_inj _ _ hcontr
        omega
    have hmap : List.map (fun k => assignedDir (i + 1 + k)) (List.range rest.length) =
        List.map ((fun k => assignedDir (i + k)) ∘ Nat.succ) (List.range rest.length) := by
      apply List.map_congr_left
      intro k _
      show assignedDir (i + 1 + k) = assignedDir (i + Nat.succ k)
      congr 1
      omega
    simp only [submitAll, hmk]
    rw [ih (i + 1) ⟨fs.dirs ++ [assignedDir i]⟩ hrest]
    simp only [List.length_cons, List.range_succ_eq_map, List.map_cons, List.map_map,
      Nat.add_zero, List.append_assoc, List.singleton_append]
    rw [hmap]

theorem filterMap_lookup_length {α β : Type} (subs : List α) (g : α → β)
    (l : List Nat) (h : ∀ j ∈ l, j < subs.length) :
    (l.filterMap (fun j => (subs[j]?).map g)).length = l.length := by
  induction l with
  | nil => rfl
  | cons j rest ih =>
    have hj : j < subs.length := h j (by simp)
    have hsome : subs[j]? = some subs[j] := List.getElem?_eq_getElem hj
    simp [List.filterMap_cons, hsome, ih (fun x hx => h x (by simp [hx]))]

/-- C1: in parallel mode, the unit at list index `i` is assigned the output
directory `temp_results/result_<i+1>` (a fixed function of the input
list), that directory is created by the time the unit's submission
iteration completes, and after the pool drains exactly N result
directories are collected and exactly N distinct output directories have
been created, for every completion order. -/
theorem run_parallel_unit_accounting (features : List String) (order : List Nat)
    (hperm : order.Perm (List.range features.length)) :
    ((submitAll features 0 (mkdirP ⟨[]⟩ "temp_results")).2.map (·.outputDir) =
        (List.range features.length).map assignedDir)
    ∧ (∀ k, k < features.length →
        assignedDir k ∈
          (submitAll (features.take (k + 1)) 0 (mkdirP ⟨[]⟩ "temp_results")).1.dirs)
    ∧ (runParallel features order ⟨[]⟩).2.length = features.length
    ∧ (runParallel features order ⟨[]⟩).1.dirs =
        "temp_results" :: (List.range features.length).map assignedDir
    ∧ ((List.range features.length).map assignedDir).Nodup := by
  have hbase : mkdirP ⟨[]⟩ "temp_results" = ⟨["temp_results"]⟩ := by
    simp [mkdirP]
  have hfresh : ∀ (l : List String) (i : Nat), ∀ k, k < l.length →
      assignedDir (i + k) ∉ (⟨["temp_results"]⟩ : FSState).dirs := by
    intro l i k _
    simp only [List.mem_singleton]
    exact fun hc => temp_results_not_assigned (i + k) hc.symm
  have hid : ∀ (l : List Nat), l.map (fun k => assignedDir (0 + k)) = l.map assignedDir := by
    intro l
    apply List.map_congr_left
    intro k _
    rw [Nat.zero_add]
  refine ⟨?_, ?_, ?_, ?_, ?_⟩
  · rw [hbase, submitAll_outputDirs, hid]
  · intro k hk
    rw [hbase, submitAll_dirs _ 0 _ (hfresh _ 0), hid]
    have hklt : k < (features.take (k + 1)).length := by
      simp [List.length_take]
      omega
    simp only [List.mem_append, List.mem_map, List.mem_range]
    exact Or.inr ⟨k, hklt, rfl⟩
  · show (List.filterMap _ order).length = features.length
    have hlen : order.length = features.length := by
      have := hperm.length_eq
      simpa using this
    rw [← hlen]
    apply filterMap_lookup_length
    intro j hj
    have : j ∈ List.range features.length := hperm.mem_iff.mp hj
    rw [submitAll_length]
    exact List.mem_range.mp this
  · show (submitAll features 0 (mkdirP ⟨[]⟩ "temp_results")).1.dirs = _
    rw [hbase, submitAll_dirs _ 0 _ (hfresh _ 0), hid]
    rfl
  · exact (List.nodup_range _).map (fun a b h => assignedDir_inj a b h)

/-- Witness for C1 at a concrete two-unit run completing out of order. -/
theorem run_parallel_unit_accounting_witness :
    ([1, 0].Perm (List.range 2))
    ∧ (runParallel ["a.feature", "b.feature"] [1, 0] ⟨[]⟩).2.length = 2
    ∧ (runParallel ["a.feature", "b.feature"] [1, 0] ⟨[]⟩).1.dirs =
        "temp_results" :: (List.range 2).map assignedDir := by
  have h := run_parallel_unit_accounting ["a.feature", "b.feature"] [1, 0] (by decide)
  exact ⟨by decide, h.2.2.1, h.2.2.2.1⟩

/-! ## Helper lemmas: step construction and the scenario step loop -/

theorem buildAllureStep_stop (s : RawStep) :
    (buildAllureStep s).1.stop =
      pyInt (((s.result.getD emptyStepResult).duration.getD 0) * 1000) := by
  simp only [buildAllureStep]
  split
  · split <;> rfl
  · rfl

theorem buildAllureStep_status (s : RawStep) :
    (buildAllureStep s).1.status =
      normalizeStatus ((s.result.getD emptyStepResult).status.getD "passed") := by
  simp only [buildAllureStep]
  split
  · split <;> rfl
  · rfl

theorem stepLoop_cons (s : RawStep) (rest : List RawStep) (st : ScanState) :
    stepLoop (s :: rest) st =
      stepLoop rest
        { steps := st.steps ++ [(buildAllureStep s).1]
          total := st.total + (buildAllureStep s).1.stop
          status := statusUpd st.status (buildAllureStep s).1.status
          errMsg := (match captureStep none s with
                     | some e => some e.message
                     | none => st.errMsg)
          errTrace := (match captureStep none s with
                       | some e => some e.trace
                       | none => st.errTrace) } := by
  simp only [stepLoop, statusUpd, captureStep]
  by_cases hc : (buildAllureStep s).1.status = "failed" ∨ (buildAllureStep s).1.status = "broken"
  · cases hp : (buildAllureStep s).2 with
    | some e => simp [hc, hp]
    | none => simp [hc, hp]
  · simp [hc]

theorem stepLoop_steps_append (steps : List RawStep) : ∀ st : ScanState,
    (stepLoop steps st).steps = st.steps ++ steps.map (fun s => (buildAllureStep s).1) := by
  induction steps with
  | nil => intro st; simp [stepLoop]
  | cons s rest ih =>
    intro st
    rw [stepLoop_cons, ih]
    simp

theorem stepLoop_total (steps : List RawStep) : ∀ st : ScanState,
    (stepLoop steps st).total =
      st.total + (steps.map (fun s => (buildAllureStep s).1.stop)).sum := by
  induction steps with
  | nil => intro st; simp [stepLoop]
  | cons s rest ih =>
    intro st
    rw [stepLoop_cons, ih]
    simp
    ring

theorem stepLoop_status (steps : List RawStep) : ∀ st : ScanState,
    (stepLoop steps st).status =
      (steps.map (fun s => (buildAllureStep s).1.status)).foldl statusUpd st.status := by
  induction steps with
  | nil => intro st; simp [stepLoop]
  | cons s rest ih =>
    intro st
    rw [stepLoop_cons, ih]
    simp

theorem foldl_captureStep (steps : List RawStep) : ∀ acc : Option ErrorInfo,
    steps.foldl captureStep acc =
      (match steps.foldl captureStep none with
       | some e => some e
       | none => acc) := by
  induction steps with
  | nil => intro acc; simp
  | cons s rest ih =>
    intro acc
    simp only [List.foldl_cons]
    rw [ih (captureStep acc s), ih (captureStep none s)]
    cases hr : rest.foldl captureStep none with
    | some e => simp
    | none =>
      simp only
      by_cases hc : (buildAllureStep s).1.status = "failed"
          ∨ (buildAllureStep s).1.status = "broken"
      · cases hp : (buildAllureStep s).2 with
        | some e => simp [captureStep, hc, hp]
        | none => simp [captureStep, hc, hp]
      · simp [captureStep, hc]

theorem stepLoop_err (steps : List RawStep) : ∀ st : ScanState,
    (stepLoop steps st).errMsg =
      (match steps.foldl captureStep none with
       | some e => some e.message
       | none => st.errMsg)
    ∧ (stepLoop steps st).errTrace =
      (match steps.foldl captureStep none with
       | some e => some e.trace
       | none => st.errTrace) := by
  induction steps with
  | nil => intro st; simp [stepLoop]
  | cons s rest ih =>
    intro st
    rw [stepLoop_cons]
    obtain ⟨ih1, ih2⟩ := ih _
    rw [ih1, ih2]
    simp only [List.foldl_cons]
    rw [foldl_captureStep rest (captureStep none s)]
    cases hr : rest.foldl captureStep none with
    | some e => simp
    | none =>
      cases hcap : captureStep none s with
      | some e => simp
      | none => simp

/-! ## Helper lemmas: scenario-level formulas -/

theorem scenarioStatus_formula (u : String) (el : RawElement) (f : String) :
    (buildAllureScenario u el f).status =
      (if el.status.getD "" = "failed" then "failed"
       else if el.status.getD "" = "error" then "broken"
       else stepDerivedStatus (el.steps.map (fun s => (buildAllureStep s).1.status))) := by
  simp only [buildAllureScenario]
  by_cases h1 : el.status.getD "" = "failed"
  · simp [h1]
  · by_cases h2 : el.status.getD "" = "error"
    · simp [h1, h2]
    · simp [h1, h2, stepLoop_status, stepDerivedStatus, initScan]

theorem scenarioSteps_formula (u : String) (el : RawElement) (f : String) :
    (buildAllureScenario u el f).steps =
      el.steps.map (fun s => (buildAllureStep s).1) := by
  simp only [buildAllureScenario]
  rw [stepLoop_steps_append]
  simp [initScan]

theorem scenarioDuration_formula (u : String) (el : RawElement) (f : String) :
    (buildAllureScenario u el f).duration =
        (el.steps.map (fun s => (buildAllureStep s).1.stop)).sum
    ∧ (buildAllureScenario u el f).stop =
        (el.steps.map (fun s => (buildAllureStep s).1.stop)).sum := by
  simp only [buildAllureScenario]
  rw [stepLoop_total]
  simp [initScan]

theorem scenarioDetails_formula (u : String) (el : RawElement) (f : String) :
    (buildAllureScenario u el f).statusDetails =
      (match el.steps.foldl captureStep none with
       | none => none
       | some e =>
         if e.message ≠ "" ∨ e.trace ≠ "" then
           some (StatusDetails.mk
             (if e.message ≠ "" then some e.message else none)
             (if e.trace ≠ "" then some e.trace else none))
         else none) := by
  obtain ⟨h1, h2⟩ := stepLoop_err el.steps initScan
  simp only [buildAllureScenario, h1, h2]
  cases hr : el.steps.foldl captureStep none with
  | none => simp [initScan, pyTruthy]
  | some e =>
    by_cases hm : e.message = ""
    · by_cases ht : e.trace = ""
      · simp [pyTruthy, hm, ht]
      · simp [pyTruthy, hm, ht]
    · by_cases ht : e.trace = ""
      · simp [pyTruthy, hm, ht]
      · simp [pyTruthy, hm, ht]

/-- C2: the scenario status starts at "passed", is overwritten by each
failed/broken normalized step status in step order (a skipped step never
changes it: removing a skipped step does not alter the result, `[passed,
skipped]` yields "passed", `[passed, passed, failed]` yields "failed"),
and an element-level "failed"/"error" status takes final precedence,
mapped to "failed"/"broken" respectively. -/
theorem scenario_status_characterization (u : String) (el : RawElement) (f : String) :
    ((buildAllureScenario u el f).status =
      (if el.status.getD "" = "failed" then "failed"
       else if el.status.getD "" = "error" then "broken"
       else stepDerivedStatus (el.steps.map (fun s => (buildAllureStep s).1.status))))
    ∧ (∀ pre post s, (buildAllureStep s).1.status = "skipped" →
        (buildAllureScenario u ⟨el.type, el.name, el.status, pre ++ s :: post, el.tags⟩ f).status =
        (buildAllureScenario u ⟨el.type, el.name, el.status, pre ++ post, el.tags⟩ f).status)
    ∧ (∀ s1 s2, (buildAllureStep s1).1.status = "passed" →
        (buildAllureStep s2).1.status = "skipped" →
        ¬ (el.status.getD "" = "failed" ∨ el.status.getD "" = "error") →
        (buildAllureScenario u ⟨el.type, el.name, el.status, [s1, s2], el.tags⟩ f).status
          = "passed")
    ∧ (∀ s1 s2 s3, (buildAllureStep s1).1.status = "passed" →
        (buildAllureStep s2).1.status = "passed" →
        (buildAllureStep s3).1.status = "failed" →
        ¬ (el.status.getD "" = "failed" ∨ el.status.getD "" = "error") →
        (buildAllureScenario u ⟨el.type, el.name, el.status, [s1, s2, s3], el.tags⟩ f).status
          = "failed") := by
  refine ⟨scenarioStatus_formula u el f, ?_, ?_, ?_⟩
  · intro pre post s hs
    rw [scenarioStatus_formula, scenarioStatus_formula]
    simp only
    by_cases h1 : el.status.getD "" = "failed"
    · simp [h1]
    · by_cases h2 : el.status.getD "" = "error"
      · simp [h1, h2]
      · simp only [h1, h2, if_false, stepDerivedStatus, List.map_append, List.map_cons,
          List.foldl_append, List.foldl_cons, hs]
        congr 1
  · intro s1 s2 h1 h2 hel
    rw [scenarioStatus_formula]
    simp only
    push_neg at hel
    simp [hel.1, hel.2, stepDerivedStatus, statusUpd, h1, h2]
  · intro s1 s2 s3 h1 h2 h3 hel
    rw [scenarioStatus_formula]
    simp only
    push_neg at hel
    simp [hel.1, hel.2, stepDerivedStatus, statusUpd, h1, h2, h3]

/-- Witness for C2: concrete step lists `[passed, skipped]` and
`[passed, passed, failed]`. -/
theorem scenario_status_characterization_witness :
    ((buildAllureStep passedStep).1.status = "passed")
    ∧ ((buildAllureStep skippedStep).1.status = "skipped")
    ∧ ((buildAllureScenario "u"
          ⟨plainElement.type, plainElement.name, plainElement.status,
            [passedStep, skippedStep], plainElement.tags⟩ "F").status = "passed")
    ∧ ((buildAllureScenario "u"
          ⟨plainElement.type, plainElement.name, plainElement.status,
            [passedStep, passedStep, failedStep "boom"], plainElement.tags⟩ "F").status
        = "failed") := by
  have h := scenario_status_characterization "u" plainElement "F"
  refine ⟨by decide, by decide, ?_, ?_⟩
  · exact h.2.2.1 passedStep skippedStep (by decide) (by decide) (by decide)
  · exact h.2.2.2 passedStep passedStep (failedStep "boom")
      (by decide) (by decide) (by decide) (by decide)

/-- C3: a converted scenario's `duration` (and its `stop`) equals the sum
of its steps' `stop` fields, and each step's `stop` is the raw duration
in seconds (0 when absent) times 1000, truncated to an integer. -/
theorem scenario_duration_eq_sum (u : String) (el : RawElement) (f : String) :
    ((buildAllureScenario u el f).duration =
        ((buildAllureScenario u el f).steps.map (fun s => s.stop)).sum)
    ∧ (buildAllureScenario u el f).stop = (buildAllureScenario u el f).duration
    ∧ (buildAllureScenario u el f).steps = el.steps.map (fun s => (buildAllureStep s).1)
    ∧ (∀ s ∈ el.steps, (buildAllureStep s).1.stop =
        pyInt (((s.result.getD emptyStepResult).duration.getD 0) * 1000)) := by
  obtain ⟨hd, hst⟩ := scenarioDuration_formula u el f
  refine ⟨?_, ?_, scenarioSteps_formula u el f, ?_⟩
  · rw [hd, scenarioSteps_formula, List.map_map]
    rfl
  · rw [hd, hst]
  · intro s _
    exact buildAllureStep_stop s

/-- Witness for C3 at a two-step scenario with a failing step. -/
theorem scenario_duration_eq_sum_witness :
    ((buildAllureScenario "u"
        ⟨plainElement.type, plainElement.name, plainElement.status,
          [passedStep, failedStep "boom"], plainElement.tags⟩ "F").duration =
      (((buildAllureScenario "u"
        ⟨plainElement.type, plainElement.name, plainElement.status,
          [passedStep, failedStep "boom"], plainElement.tags⟩ "F").steps.map
            (fun s => s.stop)).sum))
    ∧ ((buildAllureStep passedStep).1.stop =
        pyInt ((((passedStep.result.getD emptyStepResult).duration.getD 0) * 1000))) := by
  have h := scenario_duration_eq_sum "u"
    ⟨plainElement.type, plainElement.name, plainElement.status,
      [passedStep, failedStep "boom"], plainElement.tags⟩ "F"
  exact ⟨h.1, h.2.2.2 passedStep (by decide)⟩

/-! ## Helper lemmas: scenario-level error capture -/

theorem foldl_captureStep_no_fail (post : List RawStep) : ∀ acc : Option ErrorInfo,
    (∀ t ∈ post, ¬ ((buildAllureStep t).1.status = "failed"
        ∨ (buildAllureStep t).1.status = "broken")) →
    post.foldl captureStep acc = acc := by
  induction post with
  | nil => intro acc _; rfl
  | cons t rest ih =>
    intro acc h
    have ht := h t (by simp)
    have hstep : captureStep acc t = acc := by
      simp [captureStep, ht]
    rw [List.foldl_cons, hstep, ih acc (fun x hx => h x (by simp [hx]))]

theorem scenarioDetails_last_fail (u : String) (el : RawElement) (f : String)
    (pre : List RawStep) (s : RawStep) (post : List RawStep) (msg : String)
    (hsplit : el.steps = pre ++ s :: post)
    (hpost : ∀ t ∈ post, ¬ ((buildAllureStep t).1.status = "failed"
        ∨ (buildAllureStep t).1.status = "broken"))
    (hcond : (buildAllureStep s).1.status = "failed"
        ∨ (buildAllureStep s).1.status = "broken")
    (hinfo : (buildAllureStep s).2 = some ⟨msg, msg⟩)
    (hne : msg ≠ "") :
    (buildAllureScenario u el f).statusDetails = some ⟨some msg, some msg⟩ := by
  rw [scenarioDetails_formula]
  have hfold : el.steps.foldl captureStep none = some ⟨msg, msg⟩ := by
    rw [hsplit, List.foldl_append, List.foldl_cons]
    rw [foldl_captureStep_no_fail post _ hpost]
    simp [captureStep, hcond, hinfo]
  rw [hfold]
  simp [hne]

/-- C4 counterexample: a scenario with two failing steps carrying messages
"e1" then "e2" records the pair of the second (last) failing step, not the
first as the claim states. -/
theorem scenario_error_first_wins_counterexample :
    (buildAllureScenario "u" twoFailElement "F").statusDetails =
      some ⟨some "e2", some "e2"⟩
    ∧ ("e2" : String) ≠ "e1" := by
  exact ⟨by decide, by decide⟩

/-- C4 amended: the scenario-level error message/trace pair is the one
from the LAST failing/broken step encountered in step order — each later
failing step's pair overwrites an already-captured pair. -/
theorem scenario_error_last_wins (u : String) (el : RawElement) (f : String) :
    ((buildAllureScenario u el f).statusDetails =
      (match el.steps.foldl captureStep none with
       | none => none
       | some e =>
         if e.message ≠ "" ∨ e.trace ≠ "" then
           some (StatusDetails.mk
             (if e.message ≠ "" then some e.message else none)
             (if e.trace ≠ "" then some e.trace else none))
         else none))
    ∧ (∀ pre s post msg, el.steps = pre ++ s :: post →
        (∀ t ∈ post, ¬ ((buildAllureStep t).1.status = "failed"
            ∨ (buildAllureStep t).1.status = "broken")) →
        ((buildAllureStep s).1.status = "failed"
            ∨ (buildAllureStep s).1.status = "broken") →
        (buildAllureStep s).2 = some ⟨msg, msg⟩ →
        msg ≠ "" →
        (buildAllureScenario u el f).statusDetails = some ⟨some msg, some msg⟩) := by
  refine ⟨scenarioDetails_formula u el f, ?_⟩
  intro pre s post msg hsplit hpost hcond hinfo hne
  exact scenarioDetails_last_fail u el f pre s post msg hsplit hpost hcond hinfo hne

/-- Witness for the amended C4 at the concrete two-failure scenario. -/
theorem scenario_error_last_wins_witness :
    (buildAllureScenario "w" twoFailElement "F").statusDetails =
      some ⟨some "e2", some "e2"⟩ := by
  have h := scenario_error_last_wins "w" twoFailElement "F"
  exact h.2 [failedStep "e1"] (failedStep "e2") [] "e2"
    (by decide) (by simp) (by decide) (by decide) (by decide)

set_option maxRecDepth 40000 in
/-- C10 counterexample: with two failing steps whose messages both exceed
500 characters, the scenario-level statusDetails carries only the second
(last) step's text, so the first step's full text is not carried at
scenario level as the claim states. -/
theorem step_truncation_counterexample :
    longA.length > 500
    ∧ longB.length > 500
    ∧ (buildAllureScenario "u" twoLongFailElement "F").statusDetails =
        some ⟨some longB, some longB⟩
    ∧ longB ≠ longA := by
  refine ⟨by decide, by decide, ?_, by decide⟩
  have h := scenarioDetails_last_fail "u" twoLongFailElement "F"
    [failedStep longA] (failedStep longB) [] longB
    (by decide) (by simp) (by decide) (by decide) (by decide)
  exact h

/-- C10 amended: for a failing/broken step whose raw error message
exceeds 500 characters, the step's statusDetails.message is the first 500
characters while its trace is the full text (a list-valued raw message is
first joined with newlines); the scenario-level statusDetails carries the
full untruncated text of the LAST failing/broken step. -/
theorem step_error_truncation (step : RawStep)
    (hfail : (step.result.getD emptyStepResult).status.getD "passed" = "failed"
        ∨ (step.result.getD emptyStepResult).status.getD "passed" = "error")
    (hlong : (rawErrorMsg (step.result.getD emptyStepResult).error_message).length > 500) :
    ((buildAllureStep step).1.statusDetails =
        some ⟨some ((rawErrorMsg (step.result.getD emptyStepResult).error_message).take 500),
              some (rawErrorMsg (step.result.getD emptyStepResult).error_message)⟩)
    ∧ ((buildAllureStep step).2 =
        some ⟨rawErrorMsg (step.result.getD emptyStepResult).error_message,
              rawErrorMsg (step.result.getD emptyStepResult).error_message⟩)
    ∧ (∀ l, (step.result.getD emptyStepResult).error_message = some (.strList l) →
        rawErrorMsg (step.result.getD emptyStepResult).error_message =
          String.intercalate "\n" l)
    ∧ (∀ u el f pre post, el.steps = pre ++ step :: post →
        (∀ t ∈ post, ¬ ((buildAllureStep t).1.status = "failed"
            ∨ (buildAllureStep t).1.status = "broken")) →
        (buildAllureScenario u el f).statusDetails =
          some ⟨some (rawErrorMsg (step.result.getD emptyStepResult).error_message),
                some (rawErrorMsg (step.result.getD emptyStepResult).error_message)⟩) := by
  have hne : rawErrorMsg (step.result.getD emptyStepResult).error_message ≠ "" := by
    intro hcontr
    rw [hcontr] at hlong
    simp [String.length] at hlong
  refine ⟨?_, ?_, ?_, ?_⟩
  · rcases hfail with h | h <;> simp [buildAllureStep, h, hne]
  · rcases hfail with h | h <;> simp [buildAllureStep, h, hne]
  · intro l hl
    rw [hl]
    rfl
  · intro u el f pre post hsplit hpost
    have hstatus : (buildAllureStep step).1.status = "failed"
        ∨ (buildAllureStep step).1.status = "broken" := by
      rw [buildAllureStep_status]
      rcases hfail with h | h <;> simp [h, normalizeStatus]
    have hinfo : (buildAllureStep step).2 =
        some ⟨rawErrorMsg (step.result.getD emptyStepResult).error_message,
              rawErrorMsg (step.result.getD emptyStepResult).error_message⟩ := by
      rcases hfail with h | h <;> simp [buildAllureStep, h, hne]
    exact scenarioDetails_last_fail u el f pre step post _ hsplit hpost hstatus hinfo hne

set_option maxRecDepth 40000 in
/-- Witness for the amended C10 at a failing step with a 501-character
message. -/
theorem step_error_truncation_witness :
    ((buildAllureStep (failedStep longA)).1.statusDetails =
        some ⟨some (longA.take 500), some longA⟩)
    ∧ (buildAllureScenario "w"
        ⟨plainElement.type, plainElement.name, plainElement.status,
          [passedStep, failedStep longA], plainElement.tags⟩ "F").statusDetails =
        some ⟨some longA, some longA⟩ := by
  have h := step_error_truncation (failedStep longA) (by decide) (by decide)
  constructor
  · have h1 := h.1
    simpa [failedStep, rawErrorMsg] using h1
  · have h4 := h.2.2.2 "w"
      ⟨plainElement.type, plainElement.name, plainElement.status,
        [passedStep, failedStep longA], plainElement.tags⟩ "F"
      [passedStep] [] (by simp) (by simp)
    simpa [failedStep, rawErrorMsg] using h4

/-- C5: status normalization is a total function into the four-value
vocabulary — "failed" to "failed", "error" to "broken", "skipped" and
"undefined" to "skipped", everything else to "passed" — and a step with
raw duration 0 or absent gets stop 0. -/
theorem normalize_status_total :
    (∀ s, normalizeStatus s ∈ (["passed", "failed", "broken", "skipped"] : List String))
    ∧ normalizeStatus "failed" = "failed"
    ∧ normalizeStatus "error" = "broken"
    ∧ normalizeStatus "skipped" = "skipped"
    ∧ normalizeStatus "undefined" = "skipped"
    ∧ (∀ s, s ≠ "failed" → s ≠ "error" → s ≠ "skipped" → s ≠ "undefined" →
        normalizeStatus s = "passed")
    ∧ (∀ step : RawStep, (step.result.getD emptyStepResult).duration.getD 0 = 0 →
        (buildAllureStep step).1.stop = 0) := by
  refine ⟨?_, rfl, rfl, rfl, rfl, ?_, ?_⟩
  · intro s
    unfold normalizeStatus
    split_ifs <;> simp
  · intro s h1 h2 h3 h4
    simp [normalizeStatus, h1, h2, h3, h4]
  · intro step h
    rw [buildAllureStep_stop, h]
    norm_num [pyInt]

/-- Witness for C5 at an unrecognized raw status and a duration-less
step. -/
theorem normalize_status_total_witness :
    normalizeStatus "pending" = "passed"
    ∧ (buildAllureStep passedStep).1.stop = 0 := by
  have h := normalize_status_total
  exact ⟨h.2.2.2.2.2.1 "pending" (by decide) (by decide) (by decide) (by decide),
         h.2.2.2.2.2.2 passedStep (by decide)⟩

/-! ## Helper lemmas: conversion counting -/

theorem convertResults_foldl (u : String) : ∀ (files : List FileOutcome) (a b : Nat),
    files.foldl
      (fun acc file =>
        match file with
        | FileOutcome.parsed j => (acc.1 + (processJsonFile u j).length, acc.2)
        | FileOutcome.malformed => (acc.1, acc.2 + 1))
      (a, b)
    = (a + (files.map (fun f =>
          match f with
          | FileOutcome.parsed j => (processJsonFile u j).length
          | FileOutcome.malformed => 0)).sum,
       b + files.countP (fun f =>
          match f with
          | FileOutcome.parsed _ => false
          | FileOutcome.malformed => true)) := by
  intro files
  induction files with
  | nil => intro a b; simp
  | cons f rest ih =>
    intro a b
    cases f with
    | parsed j =>
      simp only [List.foldl_cons, ih, List.map_cons, List.sum_cons, List.countP_cons,
        Prod.mk.injEq]
      exact ⟨by omega, by norm_num⟩
    | malformed =>
      simp only [List.foldl_cons, ih, List.map_cons, List.sum_cons, List.countP_cons,
        Prod.mk.injEq]
      refine ⟨by omega, ?_⟩
      norm_num
      omega

/-- C6: conversion counts every scenario of every well-formed file and
skips each malformed file with one warning; removing a malformed file
from the batch does not change the number of scenarios converted, so one
bad file never aborts the batch. -/
theorem convert_results_skip_and_continue (u : String) :
    (∀ files, (convertResults u files).1 =
        (files.map (fun f =>
          match f with
          | FileOutcome.parsed j => (processJsonFile u j).length
          | FileOutcome.malformed => 0)).sum)
    ∧ (∀ pre post, (convertResults u (pre ++ FileOutcome.malformed :: post)).1 =
        (convertResults u (pre ++ post)).1)
    ∧ (∀ files, (convertResults u files).2 =
        files.countP (fun f =>
          match f with
          | FileOutcome.parsed _ => false
          | FileOutcome.malformed => true)) := by
  refine ⟨?_, ?_, ?_⟩
  · intro files
    show (files.foldl _ (0, 0)).1 = _
    rw [convertResults_foldl]
    simp
  · intro pre post
    show (List.foldl _ (0, 0) _).1 = (List.foldl _ (0, 0) _).1
    rw [convertResults_foldl, convertResults_foldl]
    simp
  · intro files
    show (files.foldl _ (0, 0)).2 = _
    rw [convertResults_foldl]
    simp

/-- C9: a result file whose JSON parses to a non-list top-level value
yields an empty scenario list, contributing zero conversions and zero
warnings — unlike a file that fails to parse, which contributes zero
conversions and one warning. -/
theorem non_list_file_counts_success (u : String) :
    processJsonFile u RawJson.nonList = []
    ∧ (∀ files, convertResults u (files ++ [FileOutcome.parsed RawJson.nonList]) =
        ((convertResults u files).1, (convertResults u files).2))
    ∧ (∀ files, convertResults u (files ++ [FileOutcome.malformed]) =
        ((convertResults u files).1, (convertResults u files).2 + 1)) := by
  refine ⟨rfl, ?_, ?_⟩
  · intro files
    show List.foldl _ (0, 0) _ = _
    rw [List.foldl_append]
    rfl
  · intro files
    show List.foldl _ (0, 0) _ = _
    rw [List.foldl_append]
    rfl

/-- C7: the process exit code is 0 iff discovery found at least one
feature file and at least one scenario was converted; per-unit subprocess
exit codes and the report-generation outcome never change the exit code,
and the exit code is always 0 or 1. -/
theorem exit_code_policy (u : String) :
    (∀ (featureFiles : List String) codes files ag ro,
        (execute u featureFiles codes files ag ro = 0 ↔
          featureFiles ≠ [] ∧ 0 < (convertResults u files).1))
    ∧ (∀ (featureFiles : List String) codes codes2 files ag ag2 ro ro2,
        execute u featureFiles codes files ag ro =
          execute u featureFiles codes2 files ag2 ro2)
    ∧ (∀ (featureFiles : List String) codes files ag ro,
        execute u featureFiles codes files ag ro = 0 ∨
          execute u featureFiles codes files ag ro = 1) := by
  have hmain : ∀ (featureFiles : List String) codes files ag ro,
      execute u featureFiles codes files ag ro =
        if featureFiles.isEmpty then 1
        else if files.isEmpty then 1
        else if 0 < (convertResults u files).1 then 0 else 1 := by
    intro featureFiles codes files ag ro
    unfold execute processResults
    by_cases h1 : featureFiles.isEmpty
    · simp [h1]
    · by_cases h2 : files.isEmpty
      · simp [h1, h2]
      · by_cases h3 : 0 < (convertResults u files).1
        · simp [h1, h2, h3]
        · simp [h1, h2, h3]
  refine ⟨?_, ?_, ?_⟩
  · intro featureFiles codes files ag ro
    rw [hmain]
    by_cases h1 : featureFiles.isEmpty
    · simp [h1, List.isEmpty_iff.mp h1]
    · by_cases h2 : files.isEmpty
      · have hconv : (convertResults u files).1 = 0 := by
          rw [List.isEmpty_iff.mp h2]
          rfl
        simp [h1, h2, hconv]
      · by_cases h3 : 0 < (convertResults u files).1
        · have hne : featureFiles ≠ [] := fun hc => h1 (by simp [hc])
          simp [h1, h2, h3, hne]
        · simp [h1, h2, h3]
  · intro featureFiles codes codes2 files ag ag2 ro ro2
    rw [hmain, hmain]
  · intro featureFiles codes files ag ro
    rw [hmain]
    split_ifs <;> simp

/-! ## Helper lemmas: discovery sorting -/

theorem charListLe_cons (a b : Char) (as bs : List Char) :
    charListLe (a :: as) (b :: bs) = true ↔
      (a.toNat < b.toNat ∨ (a.toNat = b.toNat ∧ charListLe as bs = true)) := by
  simp only [charListLe]
  split_ifs with h1 h2
  · simp [h1]
  · constructor
    · intro h
      cases h
    · intro h
      rcases h with h | ⟨h, _⟩ <;> omega
  · have heq : a.toNat = b.toNat := by omega
    simp [heq]

theorem charListLe_nil_cons (b : Char) (bs : List Char) :
    charListLe (b :: bs) [] = false := rfl

theorem charListLe_total (x : List Char) : ∀ y,
    charListLe x y = true ∨ charListLe y x = true := by
  induction x with
  | nil => intro y; left; rfl
  | cons a as ih =>
    intro y
    cases y with
    | nil => right; rfl
    | cons b bs =>
      by_cases hab : a.toNat < b.toNat
      · left
        rw [charListLe_cons]
        exact Or.inl hab
      · by_cases hba : b.toNat < a.toNat
        · right
          rw [charListLe_cons]
          exact Or.inl hba
        · rcases ih bs with h | h
          · left
            rw [charListLe_cons]
            exact Or.inr ⟨by omega, h⟩
          · right
            rw [charListLe_cons]
            exact Or.inr ⟨by omega, h⟩

theorem charListLe_trans (x : List Char) : ∀ y z,
    charListLe x y = true → charListLe y z = true → charListLe x z = true := by
  induction x with
  | nil => intro y z _ _; rfl
  | cons a as ih =>
    intro y z hxy hyz
    cases y with
    | nil => exact absurd hxy (by simp [charListLe_nil_cons])
    | cons b bs =>
      cases z with
      | nil => exact absurd hyz (by simp [charListLe_nil_cons])
      | cons c cs =>
        rw [charListLe_cons] at hxy hyz ⊢
        rcases hxy with h1 | ⟨h1, h1r⟩ <;> rcases hyz with h2 | ⟨h2, h2r⟩
        · exact Or.inl (by omega)
        · exact Or.inl (by omega)
        · exact Or.inl (by omega)
        · exact Or.inr ⟨by omega, ih bs cs h1r h2r⟩

theorem charListLe_antisymm (x : List Char) : ∀ y,
    charListLe x y = true → charListLe y x = true → x = y := by
  induction x with
  | nil =>
    intro y h1 h2
    cases y with
    | nil => rfl
    | cons b bs => exact absurd h2 (by simp [charListLe_nil_cons])
  | cons a as ih =>
    intro y h1 h2
    cases y with
    | nil => exact absurd h1 (by simp [charListLe_nil_cons])
    | cons b bs =>
      rw [charListLe_cons] at h1 h2
      have hab : a.toNat = b.toNat := by
        rcases h1 with h | ⟨h, _⟩ <;> rcases h2 with h2a | ⟨h2a, _⟩ <;> omega
      have h1r : charListLe as bs = true := by
        rcases h1 with h | ⟨_, hr⟩
        · exact absurd hab (by omega)
        · exact hr
      have h2r : charListLe bs as = true := by
        rcases h2 with h | ⟨_, hr⟩
        · exact absurd hab (by omega)
        · exact hr
      have hchar : a = b := by
        apply Char.ext
        apply UInt32.ext
        exact hab
      rw [hchar, ih bs h1r h2r]

theorem pathLe_antisymm (a b : String) (h1 : pathLe a b = true)
    (h2 : pathLe b a = true) : a = b :=
  String.ext (charListLe_antisymm a.data b.data h1 h2)

theorem sortPaths_sorted (l : List String) :
    (sortPaths l).Sorted (fun a b => pathLe a b = true) := by
  exact @List.sorted_mergeSort String pathLe
    (fun a b c hab hbc => charListLe_trans a.data b.data c.data hab hbc)
    (fun a b => by
      rcases charListLe_total a.data b.data with h | h <;> simp [pathLe, h])
    l

theorem sortPaths_perm (l : List String) : (sortPaths l).Perm l :=
  List.mergeSort_perm l _

/-- C8: discovery is deterministic — a selector ending in ".feature" is
resolved first relative to the base directory and then as the given path,
yielding a single-element list when the resolved path is an existing file
and an empty list otherwise; any other selector is treated as a subfolder
of the base directory whose *.feature files are returned as a
lexicographically sorted permutation of the directory listing; equal
filesystem states yield identical ordered lists. -/
theorem feature_discovery_deterministic (fs : DiskFS) (basedir : String) :
    (∀ name, strEndsWith name ".feature" = true → fs.kind basedir ≠ Entry.absent →
      getFeatureFiles fs basedir (some name) =
        (if fs.kind (if fs.kind (pathJoin basedir (lstripDotSlash name)) = Entry.absent
                     then name
                     else pathJoin basedir (lstripDotSlash name)) = Entry.file
         then [if fs.kind (pathJoin basedir (lstripDotSlash name)) = Entry.absent
               then name
               else pathJoin basedir (lstripDotSlash name)]
         else []))
    ∧ (∀ name, strEndsWith name ".feature" = true →
        (getFeatureFiles fs basedir (some name)).length ≤ 1)
    ∧ (∀ name, ¬ strEndsWith name ".feature" = true → fs.kind basedir ≠ Entry.absent →
        (getFeatureFiles fs basedir (some name)).Perm
          (fs.globFeature (pathJoin basedir name)))
    ∧ (∀ sel, (getFeatureFiles fs basedir sel).Sorted (fun a b => pathLe a b = true))
    ∧ (∀ fs2 : DiskFS, (∀ p, fs.kind p = fs2.kind p) →
        (∀ d, fs.globFeature d = fs2.globFeature d) →
        ∀ sel, getFeatureFiles fs basedir sel = getFeatureFiles fs2 basedir sel) := by
  refine ⟨?_, ?_, ?_, ?_, ?_⟩
  · intro name hext hbase
    simp [getFeatureFiles, hbase, hext]
  · intro name hext
    by_cases hbase : fs.kind basedir = Entry.absent
    · simp [getFeatureFiles, hbase]
    · simp only [getFeatureFiles, hbase, if_false, hext, if_true]
      split_ifs <;> simp
  · intro name hext hbase
    simp only [getFeatureFiles, hbase, if_false, hext]
    exact sortPaths_perm _
  · intro sel
    by_cases hbase : fs.kind basedir = Entry.absent
    · simp [getFeatureFiles, hbase, List.Sorted]
    · cases sel with
      | none =>
        simp only [getFeatureFiles, hbase, if_false]
        exact sortPaths_sorted _
      | some name =>
        by_cases hext : strEndsWith name ".feature" = true
        · simp only [getFeatureFiles, hbase, if_false, hext, if_true]
          split_ifs <;> simp [List.Sorted]
        · simp only [getFeatureFiles, hbase, if_false, hext]
          exact sortPaths_sorted _
  · intro fs2 hk hg sel
    have hfs : fs = fs2 := by
      cases fs with
      | mk k g =>
        cases fs2 with
        | mk k2 g2 =>
          simp only [DiskFS.mk.injEq]
          exact ⟨funext hk, funext hg⟩
    rw [hfs]

/-- Witness for C8: a single-file selector resolves under the base
directory, and a folder selector returns the folder's feature files as a
sorted permutation of the directory listing. -/
theorem feature_discovery_deterministic_witness :
    getFeatureFiles sampleFS "features" (some "login.feature") =
      ["features/login.feature"]
    ∧ (getFeatureFiles sampleFS "features" (some "herokuapp")).Perm
        (sampleFS.globFeature "features/herokuapp")
    ∧ getFeatureFiles sampleFS "features" (some "herokuapp") =
        ["features/herokuapp/a.feature", "features/herokuapp/b.feature"] := by
  have h := feature_discovery_deterministic sampleFS "features"
  have hperm := h.2.2.1 "herokuapp" (by decide) (by decide)
  refine ⟨?_, hperm, ?_⟩
  · have h1 := h.1 "login.feature" (by decide) (by decide)
    rw [h1]
    rfl
  · have hsorted := h.2.2.2.1 (some "herokuapp")
    have hglob : sampleFS.globFeature (pathJoin "features" "herokuapp") =
        ["features/herokuapp/b.feature", "features/herokuapp/a.feature"] := rfl
    have htperm : (["features/herokuapp/a.feature",
        "features/herokuapp/b.feature"] : List String).Perm
        ["features/herokuapp/b.feature", "features/herokuapp/a.feature"] :=
      List.Perm.swap _ _ _
    have hperm2 : (getFeatureFiles sampleFS "features" (some "herokuapp")).Perm
        ["features/herokuapp/a.feature", "features/herokuapp/b.feature"] := by
      rw [hglob] at hperm
      exact hperm.trans htperm.symm
    have htsorted : (["features/herokuapp/a.feature",
        "features/herokuapp/b.feature"] : List String).Sorted
        (fun a b => pathLe a b = true) := by decide
    exact @List.eq_of_perm_of_sorted String (fun a b => pathLe a b = true)
      ⟨pathLe_antisymm⟩ _ _ hperm2 hsorted htsorted

end Runner
